import Mathlib

/-
  Verification of the Alpine Analytics ETL pipeline specification.

  The analytics engines (z-score, momentum, course difficulty, course
  regression, home/away advantage) are described by the repository's
  documentation (DATA_DICTIONARY.md, spec) and consumed by the frontend;
  the computation modules themselves are not part of the shipped sources,
  so the engine definitions below are modelled from the specification.
  The Analytics page presentation logic is embedded directly from
  fis-frontend's Analytics component.
-/

namespace Alpine

/-! ## Momentum Engine (spec §4.2) -/

/-- Modelled from the spec: the EWMA/EWSTD state carried by the Momentum
Engine across one (athlete, discipline) chronological z-score sequence
(`run_daily_update.py` momentum module is not in the shipped sources).
`mu` is the exponentially weighted mean, `sigmaSq` the exponentially
weighted variance, `count` the number of observations consumed. -/
structure MomentumState where
  mu : ℚ
  sigmaSq : ℚ
  count : ℕ
deriving DecidableEq, Repr

/-- Modelled from the spec: update rule per new observation `z`:
μ ← (1−λ)·μ + λ·z, then σ² ← (1−λ)·σ² + λ·(z−μ)² using the updated μ. -/
def momentumStep (lam : ℚ) (s : MomentumState) (z : ℚ) : MomentumState :=
  let mu' := (1 - lam) * s.mu + lam * z
  { mu := mu', sigmaSq := (1 - lam) * s.sigmaSq + lam * (z - mu') ^ 2,
    count := s.count + 1 }

/-- Modelled from the spec: first observation sets μ = z, σ² = 0. -/
def momentumInit (z : ℚ) : MomentumState :=
  { mu := z, sigmaSq := 0, count := 1 }

/-- Modelled from the spec: one state per observation, oldest to newest,
computed as a fold over the ordered z-score sequence. -/
def momentumStates (lam : ℚ) : List ℚ → List MomentumState
  | [] => []
  | z :: zs => List.scanl (momentumStep lam) (momentumInit z) zs

/-- Modelled from the spec: the reference recursive computation — the
sequence of states produced by applying the update rule one observation
at a time from a given state. -/
def momentumRefStates (lam : ℚ) (s : MomentumState) : List ℚ → List MomentumState
  | [] => [s]
  | z :: zs => s :: momentumRefStates lam (momentumStep lam s z) zs

/-- Modelled from the spec: momentum_z ← μ / sqrt(σ²), undefined (none)
when σ² is zero or fewer than 2 observations exist. -/
noncomputable def momentumValue (s : MomentumState) : Option ℝ :=
  if s.count < 2 ∨ s.sigmaSq = 0 then none
  else some ((s.mu : ℝ) / Real.sqrt (s.sigmaSq : ℝ))

/-- Modelled from the spec: one MomentumRecord per input observation, in
input order: the EWMA/EWSTD state together with the derived momentum. -/
noncomputable def momentumRecords (lam : ℚ) (zs : List ℚ) :
    List (MomentumState × Option ℝ) :=
  (momentumStates lam zs).map (fun s => (s, momentumValue s))

lemma scanl_eq_refStates (lam : ℚ) :
    ∀ (zs : List ℚ) (s : MomentumState),
      List.scanl (momentumStep lam) s zs = momentumRefStates lam s zs := by
  intro zs
  induction zs with
  | nil => intro s; simp [momentumRefStates, List.scanl]
  | cons z zs ih => intro s; simp [momentumRefStates, List.scanl, ih]

/-- C1: the momentum series equals the reference recursive computation
over the chronologically ordered z-score sequence: the first observation
initializes μ = z and σ² = 0, and each later state is obtained from its
predecessor by the update rule; for z-scores [2.1, −0.3, 1.0] with
λ = 0.3, the state after the second race has μ = 0.7·2.1 + 0.3·(−0.3)
= 1.38 and σ² = 0.7·0 + 0.3·(−0.3 − 1.38)². -/
theorem momentum_series_matches_reference :
    (∀ (lam z0 : ℚ) (zs : List ℚ),
      momentumStates lam (z0 :: zs) =
        momentumRefStates lam (momentumInit z0) zs ∧
      (momentumStates lam (z0 :: zs)).get? 0 = some ⟨z0, 0, 1⟩) ∧
    (momentumStates (3/10) [21/10, -3/10, 1]).get? 1 =
      some ⟨(1 - 3/10) * (21/10) + (3/10) * (-3/10),
            (1 - 3/10) * 0 + (3/10) * ((-3/10) - 138/100) ^ 2, 2⟩ := by
  constructor
  · intro lam z0 zs
    constructor
    · simp [momentumStates, scanl_eq_refStates]
    · cases zs <;> simp [momentumStates, List.scanl, momentumInit]
  · simp only [momentumStates, List.scanl, momentumStep, momentumInit]
    norm_num

lemma scanl_get?_zero {α β : Type} (f : β → α → β) :
    ∀ (l : List α) (b : β), (List.scanl f b l).get? 0 = some b := by
  intro l b
  cases l <;> simp [List.scanl]

/-- C4: the momentum value for the first race of an (athlete, discipline)
sequence is always none; the momentum value for the second race is
defined (isSome) whenever the second z-score differs from the first; an
athlete with a single race yields exactly one record with momentum none
(the computation is total, it cannot crash). -/
theorem momentum_first_none_second_defined (lam : ℚ)
    (h0 : 0 < lam) (h1 : lam < 1) :
    (∀ (z0 : ℚ) (zs : List ℚ),
      (momentumRecords lam (z0 :: zs)).get? 0 = some (momentumInit z0, none)) ∧
    (∀ (z0 z1 : ℚ) (zs : List ℚ), z1 ≠ z0 →
      (momentumRecords lam (z0 :: z1 :: zs)).get? 1 =
        some (momentumStep lam (momentumInit z0) z1,
              momentumValue (momentumStep lam (momentumInit z0) z1)) ∧
      (momentumValue (momentumStep lam (momentumInit z0) z1)).isSome = true) ∧
    (∀ z0 : ℚ, momentumRecords lam [z0] = [(momentumInit z0, none)]) := by
  have hinit : ∀ z0 : ℚ, momentumValue (momentumInit z0) = none := by
    intro z0
    simp [momentumValue, momentumInit]
  refine ⟨?_, ?_, ?_⟩
  · intro z0 zs
    simp [momentumRecords, momentumStates, List.getElem?_map, scanl_get?_zero, hinit]
  · intro z0 z1 zs hne
    have hstep : (momentumStep lam (momentumInit z0) z1).sigmaSq =
        lam * (1 - lam) ^ 2 * (z1 - z0) ^ 2 := by
      simp only [momentumStep, momentumInit]
      ring
    have hsig : (momentumStep lam (momentumInit z0) z1).sigmaSq ≠ 0 := by
      rw [hstep]
      exact mul_ne_zero (mul_ne_zero (ne_of_gt h0)
        (pow_ne_zero 2 (by linarith))) (pow_ne_zero 2 (sub_ne_zero.mpr hne))
    have hcount : (momentumStep lam (momentumInit z0) z1).count = 2 := by
      simp [momentumStep, momentumInit]
    constructor
    · simp [momentumRecords, momentumStates, List.scanl, List.getElem?_map,
        scanl_get?_zero]
    · simp [momentumValue, hcount, hsig]
  · intro z0
    simp [momentumRecords, momentumStates, List.scanl, hinit]

/-- C4 witness at λ = 0.3 and a single-race athlete. -/
theorem momentum_first_none_second_defined_w :
    (0 : ℚ) < 3/10 ∧ (3/10 : ℚ) < 1 ∧
    momentumRecords (3/10) [2] = [(momentumInit 2, none)] :=
  ⟨by norm_num, by norm_num,
    (momentum_first_none_second_defined (3/10) (by norm_num) (by norm_num)).2.2 2⟩

/-! ## Momentum rerun idempotence (spec §6, §8) -/

/-- Modelled from the spec: the Aggregate Store view of one momentum
table, keyed by (athlete, discipline); full replacement of a key's series
on recomputation. -/
def MomentumStore : Type :=
  String → Option (List (MomentumState × Option ℝ))

/-- Modelled from the spec: recompute the full momentum series for one
(athlete, discipline) key from its z-score input and replace the stored
series (full-replace semantics). -/
noncomputable def runMomentum (lam : ℚ) (store : MomentumStore)
    (key : String) (zs : List ℚ) : MomentumStore :=
  fun k => if k = key then some (momentumRecords lam zs) else store k

/-- C5: recomputing an (athlete, discipline) momentum series twice from
the same z-score input yields the identical store: the recomputation is a
deterministic, idempotent-under-rerun function of its input. -/
theorem momentum_rerun_idempotent (lam : ℚ) (store : MomentumStore)
    (key : String) (zs : List ℚ) :
    runMomentum lam (runMomentum lam store key zs) key zs =
      runMomentum lam store key zs := by
  funext k
  by_cases h : k = key <;> simp [runMomentum, h]

/-! ## Z-Score Engine (spec §4.1) -/

/-- Modelled from the spec: one raw result row for one race, already
parsed: `finished` is true for a parseable ordinal rank with numeric
fis_points (DNF/DSQ/missing rows have `finished = false`). -/
structure RaceRow where
  athlete : String
  finished : Bool
  fis_points : ℚ
deriving DecidableEq, Repr

/-- Modelled from the spec: the finisher partition of a race's rows. -/
def finishers (rs : List RaceRow) : List RaceRow :=
  rs.filter (fun r => r.finished)

/-- Mean of a list of rationals. -/
def listMean (xs : List ℚ) : ℚ := xs.sum / (xs.length : ℚ)

/-- Sample variance (divides by n − 1) of a list of rationals. -/
def sampleVar (xs : List ℚ) : ℚ :=
  ((xs.map (fun x => (x - listMean xs) ^ 2)).sum) / ((xs.length : ℚ) - 1)

/-- fis_points of the finishers of a race, in row order. -/
def finisherPoints (rs : List RaceRow) : List ℚ :=
  (finishers rs).map (fun r => r.fis_points)

/-- Modelled from the spec: sample standard deviation of the field. -/
noncomputable def fieldStd (xs : List ℚ) : ℝ :=
  Real.sqrt ((sampleVar xs : ℚ) : ℝ)

/-- Modelled from the spec: the Z-Score Engine output for one race.
Field statistics are computed over finishers only; z = (mean − points)/std
for each finisher; no records are emitted when there are fewer than 2
finishers or the field variance is zero. -/
noncomputable def zScores (rs : List RaceRow) : List (String × ℝ) :=
  if (finishers rs).length < 2 ∨ sampleVar (finisherPoints rs) = 0 then []
  else (finishers rs).map
    (fun r => (r.athlete,
      ((listMean (finisherPoints rs) - r.fis_points : ℚ) : ℝ) /
        fieldStd (finisherPoints rs)))

lemma sum_map_ratCast {α : Type} (l : List α) (f : α → ℚ) :
    (l.map (fun x => ((f x : ℚ) : ℝ))).sum = (((l.map f).sum : ℚ) : ℝ) := by
  induction l with
  | nil => simp
  | cons a l ih => simp [ih]

lemma sum_map_div {α : Type} (l : List α) (f : α → ℝ) (c : ℝ) :
    (l.map (fun x => f x / c)).sum = (l.map f).sum / c := by
  induction l with
  | nil => simp
  | cons a l ih => simp [ih, add_div]

lemma sum_map_const_sub {α : Type} (l : List α) (f : α → ℚ) (c : ℚ) :
    (l.map (fun x => c - f x)).sum = (l.length : ℚ) * c - (l.map f).sum := by
  induction l with
  | nil => simp
  | cons a l ih =>
    simp only [List.map_cons, List.sum_cons, ih, List.length_cons]
    push_cast
    ring

lemma sum_dev_zero (xs : List ℚ) (h : xs.length ≠ 0) :
    (xs.map (fun x => listMean xs - x)).sum = 0 := by
  have hn : (xs.length : ℚ) ≠ 0 := Nat.cast_ne_zero.mpr h
  have := sum_map_const_sub xs id (listMean xs)
  simp only [List.map_id] at this
  rw [show (fun x => listMean xs - x) = (fun x => listMean xs - id x) from rfl,
    this, listMean, mul_div_cancel₀ _ hn]
  ring

lemma sampleVar_nonneg (xs : List ℚ) (h : 2 ≤ xs.length) :
    0 ≤ sampleVar xs := by
  have hsum : 0 ≤ (xs.map (fun x => (x - listMean xs) ^ 2)).sum := by
    apply List.sum_nonneg
    intro x hx
    simp only [List.mem_map] at hx
    obtain ⟨y, _, rfl⟩ := hx
    positivity
  have hden : (0 : ℚ) ≤ (xs.length : ℚ) - 1 := by
    have : (2 : ℚ) ≤ (xs.length : ℚ) := by exact_mod_cast h
    linarith
  exact div_nonneg hsum hden

/-- C2: for a race with at least 2 finishers and nonzero fis_points
variance, each finisher's z-score equals (field mean − athlete points) /
field sample standard deviation, the emitted z-scores sum to 0 (mean 0),
and a finisher with lower fis_points never has a lower z-score, so the
finisher with the lowest fis_points has the highest z-score. -/
theorem z_scores_mean_zero_and_lowest_points_highest (rs : List RaceRow)
    (h2 : 2 ≤ (finishers rs).length)
    (hv : sampleVar (finisherPoints rs) ≠ 0) :
    zScores rs = (finishers rs).map
      (fun r => (r.athlete,
        ((listMean (finisherPoints rs) - r.fis_points : ℚ) : ℝ) /
          fieldStd (finisherPoints rs))) ∧
    ((zScores rs).map (fun p => p.2)).sum = 0 ∧
    ∀ a b : RaceRow, a ∈ finishers rs → b ∈ finishers rs →
      a.fis_points ≤ b.fis_points →
      ((listMean (finisherPoints rs) - b.fis_points : ℚ) : ℝ) /
          fieldStd (finisherPoints rs) ≤
        ((listMean (finisherPoints rs) - a.fis_points : ℚ) : ℝ) /
          fieldStd (finisherPoints rs) := by
  have hlen : (finisherPoints rs).length = (finishers rs).length :=
    List.length_map _ _
  have hcond : ¬((finishers rs).length < 2 ∨
      sampleVar (finisherPoints rs) = 0) := by
    push_neg
    exact ⟨h2, hv⟩
  have hemit : zScores rs = (finishers rs).map
      (fun r => (r.athlete,
        ((listMean (finisherPoints rs) - r.fis_points : ℚ) : ℝ) /
          fieldStd (finisherPoints rs))) := by
    simp only [zScores]
    rw [if_neg hcond]
  have hvpos : 0 < sampleVar (finisherPoints rs) :=
    lt_of_le_of_ne (sampleVar_nonneg _ (hlen ▸ h2)) (Ne.symm hv)
  have hspos : 0 < fieldStd (finisherPoints rs) := by
    apply Real.sqrt_pos.mpr
    exact_mod_cast hvpos
  refine ⟨hemit, ?_, ?_⟩
  · rw [hemit, List.map_map]
    have hcomp : ((fun p : String × ℝ => p.2) ∘
        (fun r : RaceRow => (r.athlete,
          ((listMean (finisherPoints rs) - r.fis_points : ℚ) : ℝ) /
            fieldStd (finisherPoints rs)))) =
        (fun r : RaceRow =>
          ((listMean (finisherPoints rs) - r.fis_points : ℚ) : ℝ) /
            fieldStd (finisherPoints rs)) := rfl
    rw [hcomp, sum_map_div, sum_map_ratCast]
    have hdev : ((finishers rs).map
        (fun r => listMean (finisherPoints rs) - r.fis_points)) =
        (finisherPoints rs).map
          (fun x => listMean (finisherPoints rs) - x) := by
      simp [finisherPoints, List.map_map, Function.comp]
    rw [hdev, sum_dev_zero _ (by omega)]
    simp
  · intro a b _ _ hab
    rw [div_le_div_iff_of_pos_right hspos]
    exact_mod_cast sub_le_sub_left hab _

/-- A concrete two-finisher race used as a witness input. -/
def demoRace : List RaceRow :=
  [{ athlete := "a", finished := true, fis_points := 10 },
   { athlete := "b", finished := true, fis_points := 20 }]

/-- C2 witness: the demo race has 2 finishers and nonzero variance, and
its z-scores sum to 0. -/
theorem z_scores_mean_zero_and_lowest_points_highest_w :
    2 ≤ (finishers demoRace).length ∧
    sampleVar (finisherPoints demoRace) ≠ 0 ∧
    ((zScores demoRace).map (fun p => p.2)).sum = 0 :=
  ⟨by norm_num [finishers, demoRace],
   by norm_num [sampleVar, listMean, finisherPoints, finishers, demoRace],
   (z_scores_mean_zero_and_lowest_points_highest demoRace
     (by norm_num [finishers, demoRace])
     (by norm_num [sampleVar, listMean, finisherPoints, finishers,
       demoRace])).2.1⟩

/-- C3: for a race with fewer than 2 finishers, or with zero sample
variance of the finishers' fis_points, the Z-Score Engine emits no
z-score record at all for that race (no athlete gets one, and no division
by zero is performed). -/
theorem z_scores_degenerate_empty (rs : List RaceRow)
    (h : (finishers rs).length < 2 ∨ sampleVar (finisherPoints rs) = 0) :
    zScores rs = [] := by
  simp only [zScores]
  rw [if_pos h]

/-- C3 witness: a single-finisher race emits no z-score records. -/
theorem z_scores_degenerate_empty_w :
    ((finishers [({ athlete := "a", finished := true, fis_points := 10 } :
        RaceRow)]).length < 2 ∨
      sampleVar (finisherPoints
        [({ athlete := "a", finished := true, fis_points := 10 } :
          RaceRow)]) = 0) ∧
    zScores [({ athlete := "a", finished := true, fis_points := 10 } :
      RaceRow)] = [] :=
  ⟨Or.inl (by norm_num [finishers]),
   z_scores_degenerate_empty _ (Or.inl (by norm_num [finishers]))⟩

/-! ## Course Difficulty Engine (spec §4.3) -/

/-- Clamp a rational to the unit interval. -/
def clamp01 (x : ℚ) : ℚ := max 0 (min 1 x)

/-- Modelled from the spec: min-max normalization of one component value
against the population bounds (clamped to [0, 1]). -/
def minMaxNorm (lo hi v : ℚ) : ℚ := clamp01 ((v - lo) / (hi - lo))

/-- Modelled from the spec: the five normalized difficulty components of
one (location, discipline) course. -/
structure NormFactors where
  dnf : ℚ
  time : ℚ
  drop : ℚ
  gates : ℚ
  alt : ℚ
deriving DecidableEq, Repr

/-- Modelled from the spec: raw aggregated statistics of one course. -/
structure RawCourse where
  dnfRate : ℚ
  winningTime : ℚ
  verticalDrop : ℚ
  gateCount : ℚ
  startAltitude : ℚ
deriving DecidableEq, Repr

/-- Modelled from the spec: population-wide min/max bounds used to
normalize each component across the full course population. -/
structure PopBounds where
  dnfLo : ℚ
  dnfHi : ℚ
  timeLo : ℚ
  timeHi : ℚ
  dropLo : ℚ
  dropHi : ℚ
  gatesLo : ℚ
  gatesHi : ℚ
  altLo : ℚ
  altHi : ℚ
deriving DecidableEq, Repr

/-- Modelled from the spec: normalize each raw component. -/
def normFactors (b : PopBounds) (c : RawCourse) : NormFactors :=
  { dnf := minMaxNorm b.dnfLo b.dnfHi c.dnfRate,
    time := minMaxNorm b.timeLo b.timeHi c.winningTime,
    drop := minMaxNorm b.dropLo b.dropHi c.verticalDrop,
    gates := minMaxNorm b.gatesLo b.gatesHi c.gateCount,
    alt := minMaxNorm b.altLo b.altHi c.startAltitude }

/-- Modelled from the spec: fixed weights — DNF rate 40%, winning time
20%, vertical drop 20%, gate count 10%, start altitude 10%. -/
def hdiWeighted (f : NormFactors) : ℚ :=
  (4/10) * f.dnf + (2/10) * f.time + (2/10) * f.drop +
    (1/10) * f.gates + (1/10) * f.alt

/-- Modelled from the spec: the Hill Difficulty Index of one course,
scaled and clamped to the 0–100 range. -/
def courseHdi (b : PopBounds) (c : RawCourse) : ℚ :=
  max 0 (min 100 (100 * hdiWeighted (normFactors b c)))

/-- Modelled from the spec: a difficulty record is produced only for
courses with at least the configured minimum number of races. -/
def courseHdiRecord (minRaces raceCount : ℕ) (b : PopBounds)
    (c : RawCourse) : Option ℚ :=
  if raceCount < minRaces then none else some (courseHdi b c)

/-- C6: for a course with enough races, the emitted Hill Difficulty Index
is the weighted combination of the normalized components with weights
DNF 40%, winning time 20%, vertical drop 20%, gate count 10%, start
altitude 10% (scaled/clamped to 0–100), and it always lies in [0, 100]. -/
theorem hdi_weighted_formula_and_range (minRaces raceCount : ℕ)
    (b : PopBounds) (c : RawCourse) (hn : minRaces ≤ raceCount) :
    courseHdiRecord minRaces raceCount b c = some (courseHdi b c) ∧
    courseHdi b c = max 0 (min 100 (100 *
      ((4/10) * (normFactors b c).dnf + (2/10) * (normFactors b c).time +
        (2/10) * (normFactors b c).drop + (1/10) * (normFactors b c).gates +
        (1/10) * (normFactors b c).alt))) ∧
    0 ≤ courseHdi b c ∧ courseHdi b c ≤ 100 := by
  refine ⟨?_, rfl, le_max_left _ _, ?_⟩
  · simp only [courseHdiRecord]
    rw [if_neg (not_lt.mpr hn)]
  · exact max_le (by norm_num) (min_le_left _ _)

/-- C6 witness at a 3-race minimum and a concrete course. -/
theorem hdi_weighted_formula_and_range_w :
    (3 : ℕ) ≤ 5 ∧
    courseHdiRecord 3 5
        { dnfLo := 0, dnfHi := 1, timeLo := 50, timeHi := 150,
          dropLo := 100, dropHi := 1000, gatesLo := 30, gatesHi := 80,
          altLo := 1000, altHi := 3000 }
        { dnfRate := 1/4, winningTime := 100, verticalDrop := 550,
          gateCount := 55, startAltitude := 2000 } =
      some (courseHdi
        { dnfLo := 0, dnfHi := 1, timeLo := 50, timeHi := 150,
          dropLo := 100, dropHi := 1000, gatesLo := 30, gatesHi := 80,
          altLo := 1000, altHi := 3000 }
        { dnfRate := 1/4, winningTime := 100, verticalDrop := 550,
          gateCount := 55, startAltitude := 2000 }) :=
  ⟨by norm_num,
   (hdi_weighted_formula_and_range 3 5 _ _ (by norm_num)).1⟩

lemma minMaxNorm_mono (lo hi v1 v2 : ℚ) (hb : lo ≤ hi) (hv : v1 ≤ v2) :
    minMaxNorm lo hi v1 ≤ minMaxNorm lo hi v2 := by
  rcases eq_or_lt_of_le hb with heq | hlt
  · simp [minMaxNorm, ← heq, sub_self, div_zero]
  · have hd : (0 : ℚ) < hi - lo := by linarith
    have : (v1 - lo) / (hi - lo) ≤ (v2 - lo) / (hi - lo) :=
      (div_le_div_iff_of_pos_right hd).mpr (by linarith)
    exact max_le_max le_rfl (min_le_min le_rfl this)

/-- C8: the Hill Difficulty Index is monotonic in the DNF rate: raising a
course's DNF rate while all other factors (and the population bounds used
for normalization) stay fixed never decreases the index. -/
theorem hdi_monotone_in_dnf_rate (b : PopBounds) (c : RawCourse) (d2 : ℚ)
    (hb : b.dnfLo ≤ b.dnfHi) (hd : c.dnfRate ≤ d2) :
    courseHdi b c ≤ courseHdi b { c with dnfRate := d2 } := by
  have hdnf : (normFactors b c).dnf ≤
      (normFactors b { c with dnfRate := d2 }).dnf :=
    minMaxNorm_mono _ _ _ _ hb hd
  have hwsum : hdiWeighted (normFactors b c) ≤
      hdiWeighted (normFactors b { c with dnfRate := d2 }) := by
    simp only [hdiWeighted, normFactors]
    have := mul_le_mul_of_nonneg_left hdnf (by norm_num : (0:ℚ) ≤ 4/10)
    simp only [normFactors] at this
    linarith
  exact max_le_max le_rfl (min_le_min le_rfl (by linarith))

/-- C8 witness: raising the DNF rate of a concrete course from 1/4 to 1/2
does not decrease its index. -/
theorem hdi_monotone_in_dnf_rate_w :
    ((0 : ℚ) ≤ 1 ∧ (1/4 : ℚ) ≤ 1/2) ∧
    courseHdi
        { dnfLo := 0, dnfHi := 1, timeLo := 50, timeHi := 150,
          dropLo := 100, dropHi := 1000, gatesLo := 30, gatesHi := 80,
          altLo := 1000, altHi := 3000 }
        { dnfRate := 1/4, winningTime := 100, verticalDrop := 550,
          gateCount := 55, startAltitude := 2000 } ≤
      courseHdi
        { dnfLo := 0, dnfHi := 1, timeLo := 50, timeHi := 150,
          dropLo := 100, dropHi := 1000, gatesLo := 30, gatesHi := 80,
          altLo := 1000, altHi := 3000 }
        { dnfRate := 1/2, winningTime := 100, verticalDrop := 550,
          gateCount := 55, startAltitude := 2000 } :=
  ⟨⟨by norm_num, by norm_num⟩,
   hdi_monotone_in_dnf_rate _ _ (1/2) (by norm_num) (by norm_num)⟩

/-! ## Advantage Engine (spec §4.5) -/

/-- Modelled from the spec: percentage difference between home and away
average fis_points: (home_avg − away_avg) / away_avg × 100. -/
def pctDiff (home away : ℚ) : ℚ := (home - away) / away * 100

/-- Modelled from the spec: one advantage row per (country, sex,
discipline): emitted only when both partitions have at least the
configured minimum race count, carrying the percentage difference of
the partition means. -/
def advantageRow (minCount : ℕ) (homePts awayPts : List ℚ) : Option ℚ :=
  if homePts.length < minCount ∨ awayPts.length < minCount then none
  else some (pctDiff (listMean homePts) (listMean awayPts))

/-- C7: an emitted advantage row with home average h and away average a
carries exactly (h − a)/a × 100; with a > 0 the value is negative exactly
when h < a (better performance at home, lower fis_points being better);
for h = 15.3 and a = 18.2 the value is −1450/91 ≈ −15.93%. -/
theorem advantage_pct_formula_and_sign (minCount : ℕ)
    (homePts awayPts : List ℚ)
    (hh : minCount ≤ homePts.length) (ha : minCount ≤ awayPts.length)
    (hapos : 0 < listMean awayPts) :
    advantageRow minCount homePts awayPts =
      some (pctDiff (listMean homePts) (listMean awayPts)) ∧
    (∀ h a : ℚ, pctDiff h a = (h - a) / a * 100) ∧
    (pctDiff (listMean homePts) (listMean awayPts) < 0 ↔
      listMean homePts < listMean awayPts) ∧
    pctDiff (153/10) (91/5) = -1450/91 := by
  refine ⟨?_, fun h a => rfl, ?_, by norm_num [pctDiff]⟩
  · simp only [advantageRow]
    rw [if_neg]
    push_neg
    exact ⟨hh, ha⟩
  · rw [pctDiff, mul_comm]
    constructor
    · intro hlt
      by_contra hge
      push_neg at hge
      have h1 : 0 ≤ listMean homePts - listMean awayPts := by linarith
      have : 0 ≤ 100 * ((listMean homePts - listMean awayPts) /
          listMean awayPts) := by positivity
      linarith
    · intro hlt
      have h1 : listMean homePts - listMean awayPts < 0 := by linarith
      have h2 : (listMean homePts - listMean awayPts) /
          listMean awayPts < 0 := div_neg_of_neg_of_pos h1 hapos
      linarith

/-- C7 witness: concrete home/away partitions with means 15.3 and 18.2
(minimum count 2), exercising formula, sign convention and the example
value. -/
theorem advantage_pct_formula_and_sign_w :
    (2 : ℕ) ≤ ([151/10, 155/10] : List ℚ).length ∧
    (2 : ℕ) ≤ ([181/10, 183/10] : List ℚ).length ∧
    (0 : ℚ) < listMean [181/10, 183/10] ∧
    pctDiff (153/10) (91/5) = -1450/91 :=
  ⟨by norm_num, by norm_num,
   by norm_num [listMean],
   (advantage_pct_formula_and_sign 2 [151/10, 155/10] [181/10, 183/10]
     (by norm_num) (by norm_num) (by norm_num [listMean])).2.2.2⟩

/-! ## Course Regression Engine (spec §4.4) -/

/-- Modelled from the spec: one (course characteristic value, performance
z-score) observation pair for one athlete and discipline. -/
structure RegSample where
  x : ℚ
  y : ℚ
deriving DecidableEq, Repr

/-- Covariance-style numerator sum of a sample list. -/
def covSum (s : List RegSample) : ℚ :=
  (s.map (fun p => (p.x - listMean (s.map RegSample.x)) *
    (p.y - listMean (s.map RegSample.y)))).sum

/-- Squared-deviation sum of the trait values. -/
def varXSum (s : List RegSample) : ℚ :=
  (s.map (fun p => (p.x - listMean (s.map RegSample.x)) ^ 2)).sum

/-- Squared-deviation sum of the z-score values. -/
def varYSum (s : List RegSample) : ℚ :=
  (s.map (fun p => (p.y - listMean (s.map RegSample.y)) ^ 2)).sum

/-- Modelled from the spec: independent simple linear regression of
z-score against one trait — least-squares slope coefficient. -/
def fitSlope (s : List RegSample) : ℚ := covSum s / varXSum s

/-- Modelled from the spec: goodness of fit R² of the simple linear
regression. -/
def rSquared (s : List RegSample) : ℚ :=
  covSum s ^ 2 / (varXSum s * varYSum s)

/-- Modelled from the spec: a RegressionRecord (slope, R², sample count)
for one (athlete, discipline, trait) is emitted only when the number of
qualifying races reaches the configured minimum sample count. -/
def regressionRecord (minCount : ℕ) (s : List RegSample) :
    Option (ℚ × ℚ × ℕ) :=
  if s.length < minCount then none
  else some (fitSlope s, rSquared s, s.length)

/-- C9: a RegressionRecord is emitted exactly when the qualifying race
count reaches the configured minimum; in particular with minimum 10 and
only 7 qualifying races, no record is emitted. -/
theorem regression_requires_min_samples :
    (∀ (minCount : ℕ) (s : List RegSample),
      regressionRecord minCount s = none ↔ s.length < minCount) ∧
    regressionRecord 10
      [⟨50, 1⟩, ⟨52, 0⟩, ⟨54, 2⟩, ⟨56, 1⟩, ⟨58, 0⟩, ⟨60, 1⟩, ⟨62, 2⟩] =
      none := by
  constructor
  · intro minCount s
    constructor
    · intro hnone
      by_contra hge
      push_neg at hge
      simp only [regressionRecord] at hnone
      rw [if_neg (not_lt.mpr hge)] at hnone
      exact Option.some_ne_none _ hnone
    · intro hlt
      simp only [regressionRecord]
      rw [if_pos hlt]
  · simp only [regressionRecord]
    rw [if_pos (by norm_num)]

/-! ## Analytics page presentation (fis-frontend Analytics component) -/

/-- One home-advantage API row as consumed by the Analytics page
(country and fis_points_pct_diff are the fields the page logic uses). -/
structure AdvRow where
  country : String
  fis_points_pct_diff : ℚ
deriving DecidableEq, Repr

/-- One bar-chart datum produced by the Analytics page. -/
structure ChartItem where
  country : String
  advantage : ℚ
  type : String
deriving DecidableEq, Repr

/-- The Analytics page's per-row chart mapping: advantage is the absolute
value of fis_points_pct_diff, and the row is typed 'Home Advantage' when
fis_points_pct_diff < 0, otherwise 'Away Advantage'. -/
def chartItem (r : AdvRow) : ChartItem :=
  { country := r.country,
    advantage := |r.fis_points_pct_diff|,
    type := if r.fis_points_pct_diff < 0 then "Home Advantage"
            else "Away Advantage" }

/-- The Analytics page's chartData: the first 15 rows, mapped. -/
def chartData (rows : List AdvRow) : List ChartItem :=
  (rows.take 15).map chartItem

/-- The 'Biggest Home Advantage' card: rows with strictly negative
fis_points_pct_diff, first three. -/
def homeAdvantageCard (rows : List AdvRow) : List AdvRow :=
  (rows.filter (fun r => decide (r.fis_points_pct_diff < 0))).take 3

/-- The 'Best Away Performance' card: rows with strictly positive
fis_points_pct_diff, first three. -/
def awayPerformanceCard (rows : List AdvRow) : List AdvRow :=
  (rows.filter (fun r => decide (r.fis_points_pct_diff > 0))).take 3

/-- C10: on the Analytics page, every charted row carries the absolute
value of fis_points_pct_diff and is typed 'Home Advantage' exactly when
fis_points_pct_diff is strictly negative, otherwise 'Away Advantage'; a
row with fis_points_pct_diff = 0 is typed 'Away Advantage' and appears in
neither the 'Biggest Home Advantage' card nor the 'Best Away Performance'
card. -/
theorem analytics_chart_abs_and_zero_excluded (rows : List AdvRow)
    (r : AdvRow) :
    chartData rows = (rows.take 15).map chartItem ∧
    (chartItem r).advantage = |r.fis_points_pct_diff| ∧
    ((chartItem r).type = "Home Advantage" ↔ r.fis_points_pct_diff < 0) ∧
    (r.fis_points_pct_diff = 0 →
      (chartItem r).type = "Away Advantage" ∧
      r ∉ homeAdvantageCard rows ∧ r ∉ awayPerformanceCard rows) := by
  refine ⟨rfl, rfl, ?_, ?_⟩
  · simp only [chartItem]
    by_cases h : r.fis_points_pct_diff < 0
    · simp [h]
    · simp only [if_neg h]
      constructor
      · intro habs
        exact absurd habs (by decide)
      · intro hlt
        exact absurd hlt h
  · intro h0
    refine ⟨?_, ?_, ?_⟩
    · simp [chartItem, h0]
    · intro hmem
      have hmem' : r ∈ rows.filter
          (fun r => decide (r.fis_points_pct_diff < 0)) :=
        List.take_subset _ _ hmem
      have := of_decide_eq_true (List.mem_filter.mp hmem').2
      rw [h0] at this
      exact absurd this (by norm_num)
    · intro hmem
      have hmem' : r ∈ rows.filter
          (fun r => decide (r.fis_points_pct_diff > 0)) :=
        List.take_subset _ _ hmem
      have := of_decide_eq_true (List.mem_filter.mp hmem').2
      rw [h0] at this
      exact absurd this (by norm_num)

/-- C10 witness: a concrete zero-difference row is typed 'Away Advantage'
and appears in neither card. -/
theorem analytics_chart_abs_and_zero_excluded_w :
    ({ country := "SUI", fis_points_pct_diff := 0 } :
        AdvRow).fis_points_pct_diff = 0 ∧
    ((chartItem { country := "SUI", fis_points_pct_diff := 0 }).type =
        "Away Advantage" ∧
      ({ country := "SUI", fis_points_pct_diff := 0 } : AdvRow) ∉
        homeAdvantageCard [{ country := "SUI", fis_points_pct_diff := 0 }] ∧
      ({ country := "SUI", fis_points_pct_diff := 0 } : AdvRow) ∉
        awayPerformanceCard
          [{ country := "SUI", fis_points_pct_diff := 0 }]) :=
  ⟨rfl, (analytics_chart_abs_and_zero_excluded
    [{ country := "SUI", fis_points_pct_diff := 0 }]
    { country := "SUI", fis_points_pct_diff := 0 }).2.2.2 rfl⟩

end Alpine
